import Mathlib

/-!
Verification of the versioned table-format core (manifest + version archive)
against its natural-language specification.

The Rust sources are shallowly embedded: machine integers become `Nat`/`Int`
with explicit two-power reductions at the casts that can wrap, fallible code
returns `Except Error`, and `&mut self` methods become state-passing
functions.  Object-store contents are an association list from the inverted
file-name number to the file bytes, and protobuf byte-level (de)serialisation
(the prost library, outside this repository) is a function parameter so that
every theorem quantifies over it.
-/

/-- Error kinds used by the embedded code (lance_core::Error, restricted to
the variants the embedded functions construct). -/
inductive Error where
  | invalidInput (msg : String)
  | internal (msg : String)
  | io (msg : String)
deriving DecidableEq

/-- Largest u64 value, `u64::MAX`. -/
def U64MAX : Nat := 2 ^ 64 - 1

/-- Rust `i as u64` for `i : i64` (two's-complement reinterpretation). -/
def i64AsU64 (i : Int) : Nat := (i % (2 ^ 64 : Int)).toNat

/-- Rust `n as i64` for `n : u64` (two's-complement reinterpretation). -/
def u64AsI64 (n : Nat) : Int :=
  let r : Nat := n % 2 ^ 64
  if r < 2 ^ 63 then (r : Int) else (r : Int) - 2 ^ 64

/-- Rust `n as i64` for `n : u128`: keep the low 64 bits, reinterpret. -/
def u128AsI64 (n : Nat) : Int := u64AsI64 (n % 2 ^ 64)

/-- Rust `i as u128` for `i : i64` (sign extension). -/
def i64AsU128 (i : Int) : Nat := (i % (2 ^ 128 : Int)).toNat

/-- Rust `i as u128` for `i : i32` (sign extension). -/
def i32AsU128 (i : Int) : Nat := (i % (2 ^ 128 : Int)).toNat

/-! ## Version archive (src/rust/lance/src/dataset/archive.rs) -/

/-- `to_inverted_version`: `u64::MAX - version`.  A `u64` version never
exceeds `U64MAX`, so the subtraction cannot underflow. -/
def to_inverted_version (version : Nat) : Nat := U64MAX - version

/-- `from_inverted_version`: `u64::MAX - inverted`. -/
def from_inverted_version (inverted : Nat) : Nat := U64MAX - inverted

/-- `VersionArchiveConfig`. -/
structure VersionArchiveConfig where
  enabled : Bool
  max_entries : Nat
  max_archive_files : Nat
deriving DecidableEq

/-- `Default for VersionArchiveConfig`. -/
def VersionArchiveConfig.defaultConfig : VersionArchiveConfig :=
  { enabled := true, max_entries := 10000, max_archive_files := 2 }

/-- `ManifestSummary` (lance-table), the flattened per-version statistics. -/
structure ManifestSummary where
  total_fragments : Nat
  total_data_files : Nat
  total_files_size : Nat
  total_deletion_files : Nat
  total_data_file_rows : Nat
  total_deletion_file_rows : Nat
  total_rows : Nat
deriving DecidableEq

/-- `VersionSummary` (in-memory). -/
structure VersionSummary where
  version : Nat
  timestamp_millis : Int
  manifest_summary : ManifestSummary
  is_tagged : Bool
  is_cleaned_up : Bool
  transaction_uuid : Option String
  read_version : Option Nat
  operation_type : Option String
  transaction_properties : List (String × String)
deriving DecidableEq

/-- `pb_archive::VersionSummary`: the wire message, with the manifest
summary fields inlined. -/
structure PbVersionSummary where
  version : Nat
  timestamp_millis : Int
  total_fragments : Nat
  total_data_files : Nat
  total_files_size : Nat
  total_deletion_files : Nat
  total_data_file_rows : Nat
  total_deletion_file_rows : Nat
  total_rows : Nat
  is_tagged : Bool
  is_cleaned_up : Bool
  transaction_uuid : Option String
  read_version : Option Nat
  operation_type : Option String
  transaction_properties : List (String × String)
deriving DecidableEq

/-- `From<&VersionSummary> for pb_archive::VersionSummary`. -/
def VersionSummary.toPb (s : VersionSummary) : PbVersionSummary :=
  { version := s.version
    timestamp_millis := s.timestamp_millis
    total_fragments := s.manifest_summary.total_fragments
    total_data_files := s.manifest_summary.total_data_files
    total_files_size := s.manifest_summary.total_files_size
    total_deletion_files := s.manifest_summary.total_deletion_files
    total_data_file_rows := s.manifest_summary.total_data_file_rows
    total_deletion_file_rows := s.manifest_summary.total_deletion_file_rows
    total_rows := s.manifest_summary.total_rows
    is_tagged := s.is_tagged
    is_cleaned_up := s.is_cleaned_up
    transaction_uuid := s.transaction_uuid
    read_version := s.read_version
    operation_type := s.operation_type
    transaction_properties := s.transaction_properties }

/-- `From<pb_archive::VersionSummary> for VersionSummary`. -/
def VersionSummary.fromPb (proto : PbVersionSummary) : VersionSummary :=
  { version := proto.version
    timestamp_millis := proto.timestamp_millis
    manifest_summary :=
      { total_fragments := proto.total_fragments
        total_data_files := proto.total_data_files
        total_files_size := proto.total_files_size
        total_deletion_files := proto.total_deletion_files
        total_data_file_rows := proto.total_data_file_rows
        total_deletion_file_rows := proto.total_deletion_file_rows
        total_rows := proto.total_rows }
    is_tagged := proto.is_tagged
    is_cleaned_up := proto.is_cleaned_up
    transaction_uuid := proto.transaction_uuid
    read_version := proto.read_version
    operation_type := proto.operation_type
    transaction_properties := proto.transaction_properties }

/-- `pb_archive::VersionArchive`: the wire message written to an archive
file. -/
structure PbVersionArchive where
  versions : List PbVersionSummary
  latest_version_number : Nat
  dataset_created_millis : Int
  created_at_millis : Int
deriving DecidableEq

/-- The mutable state of a `VersionArchive` (the `base` path and the object
store handle are factored out: the store is passed explicitly). -/
structure VersionArchiveState where
  versions : List VersionSummary
  latest_version_number : Nat
  dataset_created_millis : Nat
  created_at_millis : Nat
  config : VersionArchiveConfig
deriving DecidableEq

/-- `From<&VersionArchive> for pb_archive::VersionArchive`. -/
def VersionArchiveState.toPb (a : VersionArchiveState) : PbVersionArchive :=
  { versions := a.versions.map VersionSummary.toPb
    latest_version_number := a.latest_version_number
    dataset_created_millis := u64AsI64 a.dataset_created_millis
    created_at_millis := u64AsI64 a.created_at_millis }

/-- File bytes. -/
abbrev Bytes := List Nat

/-- The archive directory of the object store: an association list from the
inverted version number in the file name (the `{:020}` integer before
`.binpb`) to the file bytes.  Keys are unique. -/
abbrev Store := List (Nat × Bytes)

/-- Write a whole file: overwrite the entry with this key, or append one. -/
def storePut (st : Store) (key : Nat) (b : Bytes) : Store :=
  if st.any (fun e => e.1 = key) then
    st.map (fun e => if e.1 = key then (key, b) else e)
  else
    st ++ [(key, b)]

/-- Delete a file (deleting an absent key is a no-op, matching the
suppressed-failure semantics of the cleanup path). -/
def storeDelete (st : Store) (key : Nat) : Store :=
  st.filter (fun e => e.1 ≠ key)

/-- `VersionArchive::list_archive_files`: parse each file name back to a
version and sort descending by version (the store is already keyed by the
parsed inverted number, so only the inversion and the sort remain). -/
def list_archive_files (st : Store) : List (Nat × Bytes) :=
  let archives := st.map (fun e => (from_inverted_version e.1, e.2))
  archives.insertionSort (fun a b => b.1 ≤ a.1)

/-- The in-memory state rebuilt from a decoded archive message (the tail of
`load_from_path`). -/
def archive_from_proto (config : VersionArchiveConfig)
    (proto : PbVersionArchive) : VersionArchiveState :=
  { versions := proto.versions.map VersionSummary.fromPb
    latest_version_number := proto.latest_version_number
    dataset_created_millis := i64AsU64 proto.dataset_created_millis
    created_at_millis := i64AsU64 proto.created_at_millis
    config := config }

/-- `load_from_path` after the read: decode the bytes (decode failure is an
`InvalidInput` error) and rebuild the in-memory state. -/
def archive_load_from_bytes (dec : Bytes → Option PbVersionArchive)
    (config : VersionArchiveConfig) (b : Bytes) : Except Error VersionArchiveState :=
  match dec b with
  | none => .error (.invalidInput "Failed to decode archive")
  | some proto => .ok (archive_from_proto config proto)

/-- The retry loop of `load_or_new` / `load_latest`: walk the listed files
in order, returning the first file that decodes. -/
def archive_load_loop (dec : Bytes → Option PbVersionArchive)
    (config : VersionArchiveConfig) : List (Nat × Bytes) → Option VersionArchiveState
  | [] => none
  | e :: rest =>
      match archive_load_from_bytes dec config e.2 with
      | .ok a => some a
      | .error _ => archive_load_loop dec config rest

/-- `VersionArchive::load_or_new` (`now` is the wall clock read by
`chrono::Utc::now().timestamp_millis()`). -/
def load_or_new (dec : Bytes → Option PbVersionArchive) (now : Nat)
    (config : VersionArchiveConfig) (store : Store) : VersionArchiveState :=
  match archive_load_loop dec config (list_archive_files store) with
  | some a => a
  | none =>
      { versions := []
        latest_version_number := 0
        dataset_created_millis := 0
        created_at_millis := now
        config := config }

/-- `VersionArchive::add_summaries`. -/
def VersionArchiveState.add_summaries (a : VersionArchiveState)
    (summaries : List VersionSummary) : VersionArchiveState :=
  if summaries.isEmpty then a
  else { a with versions := a.versions ++ summaries }

/-- `VersionArchive::finalize_summaries`. -/
def finalize_summaries (now : Nat) (a : VersionArchiveState) : VersionArchiveState :=
  if a.versions.isEmpty then a
  else
    let sorted := a.versions.insertionSort (fun x y => x.version ≤ y.version)
    let dcm :=
      if a.dataset_created_millis = 0 then
        (sorted.head?.map (fun v => i64AsU64 v.timestamp_millis)).getD 0
      else a.dataset_created_millis
    let truncated :=
      if sorted.length > a.config.max_entries then
        sorted.drop (sorted.length - a.config.max_entries)
      else sorted
    { versions := truncated
      latest_version_number := (truncated.map (fun v => v.version)).foldl max 0
      dataset_created_millis := dcm
      created_at_millis := now
      config := a.config }

/-- `VersionArchive::cleanup_old_archives`: after listing (descending by
version), when more than `max_archive_files` files exist, delete the first
`delete_count` listed files.  Delete failures are suppressed in the source;
the model store delete is total. -/
def cleanup_old_archives (config : VersionArchiveConfig) (store : Store) : Store :=
  let archives := list_archive_files store
  if archives.length > config.max_archive_files then
    let delete_count := archives.length - config.max_archive_files
    (archives.take delete_count).foldl
      (fun st e => storeDelete st (to_inverted_version e.1)) store
  else store

/-- `VersionArchive::flush` (`enc` is the prost encoder, `now` the wall
clock).  Returns the new in-memory state and the new store contents. -/
def VersionArchiveState.flush (enc : PbVersionArchive → Bytes) (now : Nat)
    (a : VersionArchiveState) (store : Store) :
    Except Error (VersionArchiveState × Store) :=
  let a2 := finalize_summaries now a
  if a2.versions.isEmpty then .ok (a2, store)
  else
    let inverted := to_inverted_version a2.latest_version_number
    let bytes := enc a2.toPb
    let store2 := storePut store inverted bytes
    .ok (a2, cleanup_old_archives a2.config store2)


/-! ## Schema and fragments (lance-core / lance-table data model)

The schema and fragment types themselves live outside the source slice
(only their uses do), so they are modelled from the specification. -/

/-- Modelled from the spec: a field's storage class, `Default` or `Blob`. -/
inductive StorageClass where
  | defaultClass
  | blob
deriving DecidableEq

mutual
/-- Modelled from the spec: a schema field — stable signed 32-bit id,
string-to-string metadata, storage class, and child fields.  (Named
`SchemaField` because `Field` is taken by Mathlib.) -/
inductive SchemaField where
  | mk (id : Int) (metadata : List (String × String))
       (storageClass : StorageClass) (children : SchemaFieldList)
/-- A list of fields (a dedicated type so that mutual recursion over the
field tree stays structural). -/
inductive SchemaFieldList where
  | nil
  | cons (head : SchemaField) (tail : SchemaFieldList)
end

/-- Field id projection. -/
def SchemaField.id : SchemaField → Int
  | .mk i _ _ _ => i

/-- Field metadata projection. -/
def SchemaField.metadata : SchemaField → List (String × String)
  | .mk _ md _ _ => md

/-- Field storage-class projection. -/
def SchemaField.storageClass : SchemaField → StorageClass
  | .mk _ _ sc _ => sc

/-- Field children projection. -/
def SchemaField.children : SchemaField → SchemaFieldList
  | .mk _ _ _ cs => cs

mutual
/-- Boolean equality for fields. -/
def SchemaField.beq : SchemaField → SchemaField → Bool
  | .mk i1 md1 sc1 cs1, .mk i2 md2 sc2 cs2 =>
      decide (i1 = i2) && decide (md1 = md2) && decide (sc1 = sc2) &&
        SchemaFieldList.beq cs1 cs2
/-- Boolean equality for field lists. -/
def SchemaFieldList.beq : SchemaFieldList → SchemaFieldList → Bool
  | .nil, .nil => true
  | .cons f fs, .cons g gs => SchemaField.beq f g && SchemaFieldList.beq fs gs
  | _, _ => false
end

mutual
theorem schemaField_beq_iff : ∀ f g : SchemaField, SchemaField.beq f g = true ↔ f = g
  | .mk i1 md1 sc1 cs1, .mk i2 md2 sc2 cs2 => by
      simp only [SchemaField.beq, Bool.and_eq_true, decide_eq_true_eq,
        SchemaField.mk.injEq]
      rw [schemaFieldList_beq_iff cs1 cs2]
      tauto
theorem schemaFieldList_beq_iff :
    ∀ fs gs : SchemaFieldList, SchemaFieldList.beq fs gs = true ↔ fs = gs
  | .nil, .nil => by simp [SchemaFieldList.beq]
  | .nil, .cons _ _ => by simp [SchemaFieldList.beq]
  | .cons _ _, .nil => by simp [SchemaFieldList.beq]
  | .cons f fs, .cons g gs => by
      simp only [SchemaFieldList.beq, Bool.and_eq_true, SchemaFieldList.cons.injEq]
      rw [schemaField_beq_iff f g, schemaFieldList_beq_iff fs gs]
end

instance : DecidableEq SchemaField := fun f g =>
  decidable_of_iff (SchemaField.beq f g = true) (schemaField_beq_iff f g)

instance : DecidableEq SchemaFieldList := fun fs gs =>
  decidable_of_iff (SchemaFieldList.beq fs gs = true) (schemaFieldList_beq_iff fs gs)

mutual
/-- Keep a field (and recursively its children) only when its storage class
matches the retained one; modelled from the spec's
`retain_storage_class(class)` with `Default`. -/
def SchemaField.retainDefault : SchemaField → Option SchemaField
  | .mk i md sc cs =>
      if sc = .defaultClass then some (.mk i md sc (SchemaFieldList.retainDefault cs))
      else none
/-- Retain `Default`-storage fields of a field list. -/
def SchemaFieldList.retainDefault : SchemaFieldList → SchemaFieldList
  | .nil => .nil
  | .cons f fs =>
      match SchemaField.retainDefault f with
      | some g => .cons g (SchemaFieldList.retainDefault fs)
      | none => SchemaFieldList.retainDefault fs
end

mutual
/-- All field ids of a field tree, depth-first. -/
def SchemaField.idsList : SchemaField → List Int
  | .mk i _ _ cs => i :: SchemaFieldList.idsList cs
/-- All field ids of a field list, depth-first. -/
def SchemaFieldList.idsList : SchemaFieldList → List Int
  | .nil => []
  | .cons f fs => SchemaField.idsList f ++ SchemaFieldList.idsList fs
end

mutual
/-- Modelled from the spec: `field_by_id_mut(id)` followed by the metadata
overwrite — returns the updated tree, or `none` when no field has the id. -/
def SchemaField.setMetadataById (fid : Int) (md : List (String × String)) :
    SchemaField → Option SchemaField
  | .mk i fmd sc cs =>
      if i = fid then some (.mk i md sc cs)
      else
        match SchemaFieldList.setMetadataById fid md cs with
        | some cs2 => some (.mk i fmd sc cs2)
        | none => none
/-- Metadata replacement by id over a field list (first match wins). -/
def SchemaFieldList.setMetadataById (fid : Int) (md : List (String × String)) :
    SchemaFieldList → Option SchemaFieldList
  | .nil => none
  | .cons f fs =>
      match SchemaField.setMetadataById fid md f with
      | some g => some (.cons g fs)
      | none =>
          match SchemaFieldList.setMetadataById fid md fs with
          | some fs2 => some (.cons f fs2)
          | none => none
end

/-- Modelled from the spec: a schema is an ordered tree of fields plus
schema-level metadata. -/
structure Schema where
  fields : SchemaFieldList
  metadata : List (String × String)
deriving DecidableEq

/-- `schema.retain_storage_class(StorageClass::Default)`. -/
def Schema.retainDefault (s : Schema) : Schema :=
  { s with fields := s.fields.retainDefault }

/-- All field ids of the schema. -/
def Schema.fieldIds (s : Schema) : List Int := s.fields.idsList

/-- Schema-level metadata replacement by field id. -/
def Schema.setFieldMetadata (s : Schema) (fid : Int)
    (md : List (String × String)) : Option Schema :=
  (s.fields.setMetadataById fid md).map (fun fs => { s with fields := fs })

/-- Modelled from the spec: the Lance file version enumeration, reduced to
the two members the embedded code distinguishes. -/
inductive LanceFileVersion where
  | legacy
  | stable
deriving DecidableEq

/-- Modelled from the spec: the resolved version string of a file version
(`LEGACY_FORMAT_VERSION` is the legacy one). -/
def LanceFileVersion.resolveString : LanceFileVersion → String
  | .legacy => "0.1"
  | .stable => "2.0"

/-- Modelled from the spec: a data file records the ordered field-id list it
materialises (and, for version inference, its own format version). -/
structure DataFile where
  path : String
  fields : List Int
  file_version : Option LanceFileVersion
deriving DecidableEq

/-- Modelled from the spec: opaque per-fragment row-id metadata. -/
structure RowIdMeta where
  payload : List Nat
deriving DecidableEq

/-- Modelled from the spec: opaque deletion-file descriptor. -/
structure DeletionFile where
  path : String
deriving DecidableEq

/-- Modelled from the spec: a fragment descriptor. -/
structure Fragment where
  id : Nat
  files : List DataFile
  deletion_file : Option DeletionFile
  row_id_meta : Option RowIdMeta
  physical_rows : Option Nat
deriving DecidableEq

instance : Inhabited Fragment := ⟨{ id := 0, files := [], deletion_file := none,
                                    row_id_meta := none, physical_rows := none }⟩

/-- Modelled from the spec: `Fragment::num_rows()`, `Some` exactly when the
fragment has a physical row count. -/
def Fragment.num_rows (f : Fragment) : Option Nat := f.physical_rows

/-- Modelled from the spec: `Fragment::try_infer_version`, inspecting the
fragments' data files for a format version. -/
def Fragment.try_infer_version (frags : List Fragment) : Option LanceFileVersion :=
  frags.findSome? (fun f => f.files.findSome? (fun df => df.file_version))

/-! ## Manifest (src/rust/lance-table/src/format/manifest.rs) -/

/-- `WriterVersion`. -/
structure WriterVersion where
  library : String
  version : String
deriving DecidableEq

/-- Modelled from the spec: `WriterVersion::default()` — library "lance",
version the compile-time package version (a constant outside the slice). -/
def WriterVersion.defaultVersion : WriterVersion :=
  { library := "lance", version := "0.0.0" }

/-- `DataStorageFormat`. -/
structure DataStorageFormat where
  file_format : String
  version : String
deriving DecidableEq

/-- `DataStorageFormat::new(version)`. -/
def DataStorageFormat.new (v : LanceFileVersion) : DataStorageFormat :=
  { file_format := "lance", version := v.resolveString }

/-- Modelled from the spec: the `MOVE_STABLE_ROW_IDS` reader feature bit
(lance-table feature_flags, outside the slice). -/
def FLAG_MOVE_STABLE_ROW_IDS : Nat := 2

/-- Modelled from the spec: the deprecated "v2 writer" feature bit. -/
def FLAG_USE_V2_FORMAT_DEPRECATED : Nat := 4

/-- Modelled from the spec: `has_deprecated_v2_feature_flag`. -/
def has_deprecated_v2_feature_flag (writer_flags : Nat) : Bool :=
  writer_flags &&& FLAG_USE_V2_FORMAT_DEPRECATED ≠ 0

/-- `Manifest`. -/
structure Manifest where
  schema : Schema
  local_schema : Schema
  version : Nat
  writer_version : Option WriterVersion
  fragments : List Fragment
  version_aux_data : Nat
  index_section : Option Nat
  timestamp_nanos : Nat
  tag : Option String
  reader_feature_flags : Nat
  writer_feature_flags : Nat
  max_fragment_id : Option Nat
  transaction_file : Option String
  fragment_offsets : List Nat
  next_row_id : Nat
  data_storage_format : DataStorageFormat
  config : List (String × String)
  blob_dataset_version : Option Nat
deriving DecidableEq

/-- Helper for `compute_fragment_offsets`: emit the running offset before
each length, then once more at the end. -/
def prefixOffsets (acc : Nat) : List Nat → List Nat
  | [] => [acc]
  | r :: rs => acc :: prefixOffsets (acc + r) rs

/-- `compute_fragment_offsets`: the row-count prefix sum, with a final
sentinel entry equal to the total row count. -/
def compute_fragment_offsets (fragments : List Fragment) : List Nat :=
  prefixOffsets 0 (fragments.map (fun f => f.num_rows.getD 0))

/-- `Manifest::new`. -/
def Manifest.new (schema : Schema) (fragments : List Fragment)
    (data_storage_format : DataStorageFormat)
    (blob_dataset_version : Option Nat) : Manifest :=
  { schema := schema
    local_schema := schema.retainDefault
    version := 1
    writer_version := some WriterVersion.defaultVersion
    fragments := fragments
    version_aux_data := 0
    index_section := none
    timestamp_nanos := 0
    tag := none
    reader_feature_flags := 0
    writer_feature_flags := 0
    max_fragment_id := none
    transaction_file := none
    fragment_offsets := compute_fragment_offsets fragments
    next_row_id := 0
    data_storage_format := data_storage_format
    config := []
    blob_dataset_version := blob_dataset_version }

/-- `Manifest::new_from_previous`. -/
def Manifest.new_from_previous (previous : Manifest) (schema : Schema)
    (fragments : List Fragment) (new_blob_version : Option Nat) : Manifest :=
  { schema := schema
    local_schema := schema.retainDefault
    version := previous.version + 1
    writer_version := some WriterVersion.defaultVersion
    fragments := fragments
    version_aux_data := 0
    index_section := none
    timestamp_nanos := 0
    tag := none
    reader_feature_flags := 0
    writer_feature_flags := 0
    max_fragment_id := previous.max_fragment_id
    transaction_file := none
    fragment_offsets := compute_fragment_offsets fragments
    next_row_id := previous.next_row_id
    data_storage_format := previous.data_storage_format
    config := previous.config
    blob_dataset_version := new_blob_version.or previous.blob_dataset_version }

/-- `Manifest::replace_field_metadata`: returns the (possibly) updated
manifest together with the `Result`; the `Err` branch performs no write. -/
def Manifest.replace_field_metadata (m : Manifest) (field_id : Int)
    (new_metadata : List (String × String)) : Manifest × Except Error Unit :=
  match m.schema.setFieldMetadata field_id new_metadata with
  | some s2 => ({ m with schema := s2 }, .ok ())
  | none =>
      (m, .error (.invalidInput
        ("Field with id " ++ toString field_id ++
          " does not exist for replace_field_metadata")))

/-- `Manifest::max_fragment_id()` (the query; the stored field keeps the
source name `max_fragment_id`). -/
def Manifest.maxFragmentId (m : Manifest) : Option Nat :=
  match m.max_fragment_id with
  | some max_id => some max_id
  | none => (m.fragments.map (fun f => f.id)).max?

/-- `Manifest::fragments_since`. -/
def Manifest.fragments_since (self since : Manifest) : Except Error (List Fragment) :=
  if since.version ≥ self.version then
    .error (.io
      ("fragments_since: given version " ++ toString since.version ++
        " is newer than manifest version " ++ toString self.version))
  else
    let start := since.maxFragmentId
    .ok (self.fragments.filter (fun f => (start.map (fun s => decide (f.id > s))).getD true))

/-- The loop of Rust `slice::binary_search` (core library): `left`/`right`
bisection; `Except.ok` is `Ok(mid)` (an exact match), `Except.error` is
`Err(left)` (the insertion point).  The fuel argument only discharges
termination; `xs.length + 1` steps always suffice. -/
def binarySearchLoop (xs : List Nat) (target : Nat) :
    Nat → Nat → Nat → Except Nat Nat
  | left, _, 0 => .error left
  | left, right, fuel + 1 =>
      if left < right then
        let mid := left + (right - left) / 2
        let v := xs.getD mid 0
        if v < target then binarySearchLoop xs target (mid + 1) right fuel
        else if target < v then binarySearchLoop xs target left mid fuel
        else .ok mid
      else .error left

/-- Rust `xs.binary_search(&target)`. -/
def rustBinarySearch (xs : List Nat) (target : Nat) : Except Nat Nat :=
  binarySearchLoop xs target 0 xs.length (xs.length + 1)

/-- The scan loop of `fragments_by_offset_range`, fuelled so that it stays
structurally recursive: from index `i` upward, include
`(offsets[i], fragments[i])` until a fragment starts at or past the range
end or ends at or before the range start.  `m.fragments.length - i` units
of fuel run the loop to its natural end. -/
def offsetWalkFuel (m : Manifest) (start stop : Nat) : Nat → Nat → List (Nat × Fragment)
  | _, 0 => []
  | i, fuel + 1 =>
      if i < m.fragments.length then
        let off := m.fragment_offsets.getD i 0
        let frag := m.fragments.getD i default
        if stop ≤ off ∨ off + frag.num_rows.getD 0 ≤ start then []
        else (off, frag) :: offsetWalkFuel m start stop (i + 1) fuel
      else []

/-- The scan loop of `fragments_by_offset_range` from index `i` to the end
of the fragment list. -/
def offsetWalk (m : Manifest) (start stop : Nat) (i : Nat) : List (Nat × Fragment) :=
  offsetWalkFuel m start stop i (m.fragments.length - i)

/-- `Manifest::fragments_by_offset_range(start..stop)`.  `none` models the
underflow of `idx - 1` when the binary search fails with insertion point 0
(a usize underflow in the source); otherwise the returned list is the
source's result. -/
def Manifest.fragments_by_offset_range (m : Manifest) (start stop : Nat) :
    Option (List (Nat × Fragment)) :=
  match rustBinarySearch m.fragment_offsets start with
  | .ok idx => some (offsetWalk m start stop idx)
  | .error ins => if ins = 0 then none else some (offsetWalk m start stop (ins - 1))

/-- `Manifest::uses_move_stable_row_ids`. -/
def Manifest.uses_move_stable_row_ids (m : Manifest) : Bool :=
  m.reader_feature_flags &&& FLAG_MOVE_STABLE_ROW_IDS ≠ 0

/-! ## Manifest codec -/

/-- `prost_types::Timestamp`. -/
structure PbTimestamp where
  seconds : Int
  nanos : Int
deriving DecidableEq

/-- `pb::manifest::WriterVersion`. -/
structure PbWriterVersion where
  library : String
  version : String
deriving DecidableEq

/-- `pb::Manifest`.  Fields (the schema field list) and fragments are
transported by the lance-file / lance-table sub-codecs, which sit outside
the source slice and are modelled from the spec as the identity. -/
structure PbManifest where
  fields : SchemaFieldList
  metadata : List (String × String)
  version : Nat
  writer_version : Option PbWriterVersion
  fragments : List Fragment
  version_aux_data : Nat
  index_section : Option Nat
  timestamp : Option PbTimestamp
  tag : String
  reader_feature_flags : Nat
  writer_feature_flags : Nat
  max_fragment_id : Option Nat
  transaction_file : String
  next_row_id : Nat
  data_format : Option DataStorageFormat
  config : List (String × String)
  blob_dataset_version : Nat
deriving DecidableEq

/-- `From<&Manifest> for pb::Manifest` (the encoder). -/
def Manifest.toPb (m : Manifest) : PbManifest :=
  { fields := m.schema.fields
    metadata := m.schema.metadata
    version := m.version
    writer_version := m.writer_version.map
      (fun wv => { library := wv.library, version := wv.version })
    fragments := m.fragments
    version_aux_data := m.version_aux_data
    index_section := m.index_section
    timestamp :=
      if m.timestamp_nanos = 0 then none
      else
        some { seconds := u128AsI64 (m.timestamp_nanos / 1000000000)
               nanos := Int.ofNat (m.timestamp_nanos % 1000000000) }
    tag := m.tag.getD ""
    reader_feature_flags := m.reader_feature_flags
    writer_feature_flags := m.writer_feature_flags
    max_fragment_id := m.max_fragment_id
    transaction_file := m.transaction_file.getD ""
    next_row_id := m.next_row_id
    data_format := some { file_format := m.data_storage_format.file_format
                          version := m.data_storage_format.version }
    config := m.config
    blob_dataset_version := m.blob_dataset_version.getD 0 }

/-- `TryFrom<pb::Manifest> for Manifest` (the decoder).  Fragment
conversion (`Fragment::try_from`, outside the slice) is modelled as total. -/
def decodeManifest (p : PbManifest) : Except Error Manifest :=
  let timestamp_nanos := p.timestamp.map
    (fun ts => (i64AsU128 ts.seconds * 1000000000 % 2 ^ 128 + i32AsU128 ts.nanos) % 2 ^ 128)
  let writer_version := p.writer_version.map
    (fun wv => { library := wv.library, version := wv.version : WriterVersion })
  let fragments := p.fragments
  let fragment_offsets := compute_fragment_offsets fragments
  if FLAG_MOVE_STABLE_ROW_IDS &&& p.reader_feature_flags ≠ 0 ∧
      ¬ (fragments.all (fun frag => frag.row_id_meta.isSome)) then
    .error (.internal "All fragments must have row ids")
  else
    let data_storage_format :=
      match p.data_format with
      | none =>
          match Fragment.try_infer_version fragments with
          | some inferred_version => DataStorageFormat.new inferred_version
          | none =>
              if has_deprecated_v2_feature_flag p.writer_feature_flags then
                DataStorageFormat.new .stable
              else
                DataStorageFormat.new .legacy
      | some format => format
    let schema : Schema := { fields := p.fields, metadata := p.metadata }
    .ok { schema := schema
          local_schema := schema.retainDefault
          version := p.version
          writer_version := writer_version
          version_aux_data := p.version_aux_data
          index_section := p.index_section
          timestamp_nanos := timestamp_nanos.getD 0
          tag := if p.tag = "" then none else some p.tag
          reader_feature_flags := p.reader_feature_flags
          writer_feature_flags := p.writer_feature_flags
          max_fragment_id := p.max_fragment_id
          fragments := fragments
          transaction_file :=
            if p.transaction_file = "" then none else some p.transaction_file
          fragment_offsets := fragment_offsets
          next_row_id := p.next_row_id
          data_storage_format := data_storage_format
          config := p.config
          blob_dataset_version :=
            if p.blob_dataset_version = 0 then none else some p.blob_dataset_version }

/-- A manifest with its derived fields (`local_schema`, `fragment_offsets`)
recomputed from the carried ones, as the decoder does. -/
def Manifest.withDerivedRecomputed (m : Manifest) : Manifest :=
  { m with local_schema := m.schema.retainDefault
           fragment_offsets := compute_fragment_offsets m.fragments }

/-! ## Helper lemmas -/

theorem le_foldl_max (l : List Nat) (a : Nat) : a ≤ l.foldl max a := by
  induction l generalizing a with
  | nil => simp
  | cons x xs ih => exact le_trans (le_max_left a x) (ih (max a x))

theorem mem_le_foldl_max (l : List Nat) (a : Nat) : ∀ x ∈ l, x ≤ l.foldl max a := by
  induction l generalizing a with
  | nil => simp
  | cons y ys ih =>
      intro x hx
      rcases List.mem_cons.mp hx with h | h
      · subst h
        exact le_trans (le_max_right a x) (le_foldl_max ys (max a x))
      · exact ih (max a y) x h

theorem foldl_max_mem (l : List Nat) (a : Nat) :
    l.foldl max a = a ∨ l.foldl max a ∈ l := by
  induction l generalizing a with
  | nil => simp
  | cons x xs ih =>
      rcases ih (max a x) with h | h
      · rcases max_choice a x with hm | hm
        · left; rw [List.foldl_cons, h, hm]
        · right; rw [List.foldl_cons, h, hm]
          exact List.mem_cons_self x xs
      · right; exact List.mem_cons_of_mem x h

theorem not_all_row_id_iff (l : List Fragment) :
    (¬ (l.all (fun frag => frag.row_id_meta.isSome) : Bool)) ↔
      ∃ f ∈ l, f.row_id_meta = none := by
  simp only [List.all_eq_true, not_forall]
  constructor
  · rintro ⟨f, hf, hne⟩
    exact ⟨f, hf, Option.not_isSome_iff_eq_none.mp hne⟩
  · rintro ⟨f, hf, hnone⟩
    exact ⟨f, hf, by simp [hnone]⟩

/-! ## Claim C10 -/

/-- C10: calling `flush` on a `VersionArchive` whose versions list is empty
returns `Ok`, writes no file, and leaves every field of the archive
unchanged (in particular `created_at_millis` is not refreshed). -/
theorem flush_empty_versions_noop (enc : PbVersionArchive → Bytes) (now : Nat)
    (a : VersionArchiveState) (store : Store) (h : a.versions = []) :
    VersionArchiveState.flush enc now a store = .ok (a, store) := by
  simp [VersionArchiveState.flush, finalize_summaries, h]

/-- Witness for C10 at a concrete archive and store. -/
theorem flush_empty_versions_noop_witness :
    VersionArchiveState.flush (fun _ => [9]) 77
      { versions := [], latest_version_number := 3, dataset_created_millis := 4,
        created_at_millis := 5, config := VersionArchiveConfig.defaultConfig }
      [(11, [1])] =
      .ok ({ versions := [], latest_version_number := 3, dataset_created_millis := 4,
             created_at_millis := 5, config := VersionArchiveConfig.defaultConfig },
           [(11, [1])]) :=
  flush_empty_versions_noop (fun _ => [9]) 77 _ [(11, [1])] rfl

/-! ## Claim C7 -/

/-- C7: `fragments_since(prev)` fails with an `Io` error exactly when
`prev.version >= self.version`; otherwise it returns the fragments whose id
is strictly greater than `prev.max_fragment_id()`, or all fragments when
that is `None`. -/
theorem fragments_since_spec (self since : Manifest) :
    ((∃ msg, self.fragments_since since = .error (.io msg)) ↔
        self.version ≤ since.version) ∧
    (since.version < self.version →
      self.fragments_since since =
        .ok (match since.maxFragmentId with
             | some s => self.fragments.filter (fun f => decide (f.id > s))
             | none => self.fragments)) := by
  constructor
  · constructor
    · rintro ⟨msg, h⟩
      by_contra hlt
      push_neg at hlt
      unfold Manifest.fragments_since at h
      rw [if_neg (by exact not_le.mpr hlt)] at h
      exact absurd h (by simp)
    · intro hge
      exact ⟨_, by unfold Manifest.fragments_since; rw [if_pos hge]⟩
  · intro hlt
    unfold Manifest.fragments_since
    rw [if_neg (not_le.mpr hlt)]
    cases hmf : since.maxFragmentId with
    | none => simp [hmf]
    | some s => simp [hmf]

/-- Witness for C7: a same-version pair fails with `Io`, and an older
baseline with max fragment id 0 selects exactly the fragments with larger
ids. -/
theorem fragments_since_spec_witness :
    (∃ msg,
      Manifest.fragments_since
        (Manifest.new { fields := .nil, metadata := [] } []
          { file_format := "lance", version := "2.0" } none)
        (Manifest.new { fields := .nil, metadata := [] } []
          { file_format := "lance", version := "2.0" } none) =
        .error (.io msg)) ∧
    Manifest.fragments_since
      (Manifest.new_from_previous
        (Manifest.new { fields := .nil, metadata := [] } []
          { file_format := "lance", version := "2.0" } none)
        { fields := .nil, metadata := [] }
        [{ id := 0, files := [], deletion_file := none, row_id_meta := none,
           physical_rows := some 1 },
         { id := 1, files := [], deletion_file := none, row_id_meta := none,
           physical_rows := some 2 }] none)
      { (Manifest.new { fields := .nil, metadata := [] } []
          { file_format := "lance", version := "2.0" } none) with
        max_fragment_id := some 0 } =
      .ok [{ id := 1, files := [], deletion_file := none, row_id_meta := none,
             physical_rows := some 2 }] := by
  constructor
  · exact (fragments_since_spec _ _).1.mpr (by decide)
  · have h := (fragments_since_spec
      (Manifest.new_from_previous
        (Manifest.new { fields := .nil, metadata := [] } []
          { file_format := "lance", version := "2.0" } none)
        { fields := .nil, metadata := [] }
        [{ id := 0, files := [], deletion_file := none, row_id_meta := none,
           physical_rows := some 1 },
         { id := 1, files := [], deletion_file := none, row_id_meta := none,
           physical_rows := some 2 }] none)
      { (Manifest.new { fields := .nil, metadata := [] } []
          { file_format := "lance", version := "2.0" } none) with
        max_fragment_id := some 0 }).2 (by decide)
    rw [h]
    rfl

/-! ## Claim C9 -/

mutual
theorem schemaField_setMetadataById_eq_none (fid : Int) (md : List (String × String)) :
    ∀ f : SchemaField, fid ∉ f.idsList → f.setMetadataById fid md = none
  | .mk i fmd sc cs, h => by
      have hi : ¬ i = fid := by
        intro he
        exact h (by simp [SchemaField.idsList, he])
      have hcs : fid ∉ cs.idsList := by
        intro hmem
        exact h (by simp [SchemaField.idsList, hmem])
      unfold SchemaField.setMetadataById
      rw [if_neg hi, schemaFieldList_setMetadataById_eq_none fid md cs hcs]
theorem schemaFieldList_setMetadataById_eq_none (fid : Int) (md : List (String × String)) :
    ∀ fs : SchemaFieldList, fid ∉ fs.idsList → fs.setMetadataById fid md = none
  | .nil, _ => rfl
  | .cons f fs, h => by
      have hf : fid ∉ f.idsList := by
        intro hmem
        exact h (by simp [SchemaFieldList.idsList, hmem])
      have hfs : fid ∉ fs.idsList := by
        intro hmem
        exact h (by simp [SchemaFieldList.idsList, hmem])
      unfold SchemaFieldList.setMetadataById
      rw [schemaField_setMetadataById_eq_none fid md f hf,
        schemaFieldList_setMetadataById_eq_none fid md fs hfs]
end

/-- C9: `replace_field_metadata` with a field id not present in the schema
returns an `InvalidInput` error and leaves the manifest completely
unchanged. -/
theorem replace_field_metadata_unknown_id (m : Manifest) (fid : Int)
    (md : List (String × String)) (h : fid ∉ m.schema.fieldIds) :
    (m.replace_field_metadata fid md).1 = m ∧
    ∃ msg, (m.replace_field_metadata fid md).2 = .error (.invalidInput msg) := by
  unfold Manifest.replace_field_metadata Schema.setFieldMetadata
  rw [schemaFieldList_setMetadataById_eq_none fid md m.schema.fields h]
  exact ⟨rfl, _, rfl⟩

/-- Witness for C9 at a concrete manifest whose schema has the single field
id 0, replacing metadata of the absent id 7. -/
theorem replace_field_metadata_unknown_id_witness :
    (Manifest.replace_field_metadata
      (Manifest.new
        { fields := .cons (.mk 0 [] .defaultClass .nil) .nil, metadata := [] } []
        { file_format := "lance", version := "2.0" } none)
      7 [("k", "v")]).1 =
      Manifest.new
        { fields := .cons (.mk 0 [] .defaultClass .nil) .nil, metadata := [] } []
        { file_format := "lance", version := "2.0" } none ∧
    ∃ msg,
      (Manifest.replace_field_metadata
        (Manifest.new
          { fields := .cons (.mk 0 [] .defaultClass .nil) .nil, metadata := [] } []
          { file_format := "lance", version := "2.0" } none)
        7 [("k", "v")]).2 = .error (.invalidInput msg) :=
  replace_field_metadata_unknown_id _ 7 [("k", "v")] (by decide)

/-! ## Claim C4 -/

/-- C4: decoding a protobuf manifest fails with the `Internal` error
"All fragments must have row ids" exactly when the reader feature flags
have the `MOVE_STABLE_ROW_IDS` bit set and some fragment lacks
`row_id_meta`. -/
theorem decode_move_stable_row_ids_validation (p : PbManifest) :
    decodeManifest p = .error (.internal "All fragments must have row ids") ↔
      (p.reader_feature_flags &&& FLAG_MOVE_STABLE_ROW_IDS ≠ 0 ∧
        ∃ f ∈ p.fragments, f.row_id_meta = none) := by
  unfold decodeManifest
  by_cases hc : FLAG_MOVE_STABLE_ROW_IDS &&& p.reader_feature_flags ≠ 0 ∧
      ¬ (p.fragments.all (fun frag => frag.row_id_meta.isSome) : Bool)
  · rw [if_pos hc]
    constructor
    · intro _
      exact ⟨by rw [Nat.land_comm]; exact hc.1, (not_all_row_id_iff p.fragments).mp hc.2⟩
    · intro _
      rfl
  · rw [if_neg hc]
    constructor
    · intro h
      exact absurd h (by simp)
    · rintro ⟨hflag, hmiss⟩
      exact absurd ⟨by rw [Nat.land_comm]; exact hflag,
        (not_all_row_id_iff p.fragments).mpr hmiss⟩ hc

/-! ## Claim C6 -/

instance : IsTotal VersionSummary (fun x y => x.version ≤ y.version) :=
  ⟨fun a b => le_total a.version b.version⟩

instance : IsTrans VersionSummary (fun x y => x.version ≤ y.version) :=
  ⟨fun _ _ _ h1 h2 => le_trans h1 h2⟩

theorem foldl_max_mem_of_ne_nil (l : List Nat) (h : l ≠ []) : l.foldl max 0 ∈ l := by
  cases l with
  | nil => exact absurd rfl h
  | cons x xs =>
      have hx : max 0 x = x := max_eq_right (Nat.zero_le x)
      rw [List.foldl_cons, hx]
      rcases foldl_max_mem xs x with h1 | h1
      · rw [h1]; exact List.mem_cons_self x xs
      · exact List.mem_cons_of_mem x h1

theorem finalize_summaries_spec (now : Nat) (a : VersionArchiveState)
    (h : a.versions ≠ []) :
    (finalize_summaries now a).versions =
      (a.versions.insertionSort (fun x y => x.version ≤ y.version)).drop
        (a.versions.length - a.config.max_entries) ∧
    (finalize_summaries now a).latest_version_number =
      ((finalize_summaries now a).versions.map (fun s => s.version)).foldl max 0 := by
  unfold finalize_summaries
  rw [if_neg (by simp [h])]
  have hlen : (a.versions.insertionSort (fun x y => x.version ≤ y.version)).length =
      a.versions.length := List.length_insertionSort _ _
  by_cases hgt : a.versions.length > a.config.max_entries
  · simp only [hlen, if_pos hgt]
    exact ⟨trivial, trivial⟩
  · simp only [hlen, if_neg hgt]
    have h0 : a.versions.length - a.config.max_entries = 0 := by omega
    rw [h0, List.drop_zero]
    exact ⟨rfl, trivial⟩

/-- C6: after every flush on an archive with a non-empty versions list, the
in-memory versions are sorted ascending by version, their count is at most
`max_entries` with the smallest versions removed first when truncation was
needed, and `latest_version_number` is the maximum version in the list. -/
theorem flush_sorted_truncated_latest (enc : PbVersionArchive → Bytes) (now : Nat)
    (a : VersionArchiveState) (store : Store) (h : a.versions ≠ []) :
    (∃ store2, VersionArchiveState.flush enc now a store =
        .ok (finalize_summaries now a, store2)) ∧
    List.Sorted (fun x y : VersionSummary => x.version ≤ y.version)
      (finalize_summaries now a).versions ∧
    (finalize_summaries now a).versions.length ≤ a.config.max_entries ∧
    (∃ removed, (removed ++ (finalize_summaries now a).versions).Perm a.versions ∧
      ∀ r ∈ removed, ∀ k ∈ (finalize_summaries now a).versions,
        r.version ≤ k.version) ∧
    (∀ s ∈ (finalize_summaries now a).versions,
        s.version ≤ (finalize_summaries now a).latest_version_number) ∧
    ((finalize_summaries now a).versions = [] ∨
      (finalize_summaries now a).latest_version_number ∈
        (finalize_summaries now a).versions.map (fun s => s.version)) := by
  obtain ⟨hvers, hlatest⟩ := finalize_summaries_spec now a h
  have hsorted : List.Sorted (fun x y : VersionSummary => x.version ≤ y.version)
      (a.versions.insertionSort (fun x y => x.version ≤ y.version)) :=
    List.sorted_insertionSort _ _
  refine ⟨?_, ?_, ?_, ?_, ?_, ?_⟩
  · unfold VersionArchiveState.flush
    by_cases he : (finalize_summaries now a).versions.isEmpty
    · exact ⟨store, by rw [if_pos he]⟩
    · exact ⟨_, by rw [if_neg he]⟩
  · rw [hvers]
    exact hsorted.drop
  · rw [hvers, List.length_drop, List.length_insertionSort]
    omega
  · refine ⟨(a.versions.insertionSort (fun x y => x.version ≤ y.version)).take
      (a.versions.length - a.config.max_entries), ?_, ?_⟩
    · rw [hvers, List.take_append_drop]
      exact List.perm_insertionSort _ _
    · intro r hr k hk
      rw [hvers] at hk
      have hta := List.take_append_drop (a.versions.length - a.config.max_entries)
        (a.versions.insertionSort (fun x y => x.version ≤ y.version))
      have hp : List.Pairwise (fun x y : VersionSummary => x.version ≤ y.version)
          ((a.versions.insertionSort (fun x y => x.version ≤ y.version)).take
              (a.versions.length - a.config.max_entries) ++
            (a.versions.insertionSort (fun x y => x.version ≤ y.version)).drop
              (a.versions.length - a.config.max_entries)) := by
        rw [hta]; exact hsorted
      exact (List.pairwise_append.mp hp).2.2 r hr k hk
  · intro s hs
    rw [hlatest]
    exact mem_le_foldl_max _ 0 s.version (List.mem_map_of_mem _ hs)
  · by_cases hnil : (finalize_summaries now a).versions = []
    · exact Or.inl hnil
    · refine Or.inr ?_
      rw [hlatest]
      exact foldl_max_mem_of_ne_nil _ (by simp [hnil])

/-- A concrete version summary shaped like the repository's test helper. -/
def sampleSummary (v : Nat) : VersionSummary :=
  { version := v
    timestamp_millis := Int.ofNat (v * 1000)
    manifest_summary :=
      { total_fragments := v, total_data_files := v, total_files_size := v * 100,
        total_deletion_files := 0, total_data_file_rows := v * 100,
        total_deletion_file_rows := 0, total_rows := v * 100 }
    is_tagged := false
    is_cleaned_up := false
    transaction_uuid := none
    read_version := none
    operation_type := none
    transaction_properties := [] }

/-- Witness for C6: a three-entry archive with `max_entries = 2`. -/
theorem flush_sorted_truncated_latest_witness :
    (∃ store2,
      VersionArchiveState.flush (fun _ => []) 99
        { versions := [sampleSummary 3, sampleSummary 1, sampleSummary 2],
          latest_version_number := 0, dataset_created_millis := 0,
          created_at_millis := 0,
          config := { enabled := true, max_entries := 2, max_archive_files := 2 } }
        [] =
        .ok (finalize_summaries 99
          { versions := [sampleSummary 3, sampleSummary 1, sampleSummary 2],
            latest_version_number := 0, dataset_created_millis := 0,
            created_at_millis := 0,
            config := { enabled := true, max_entries := 2, max_archive_files := 2 } },
          store2)) ∧
    (finalize_summaries 99
      { versions := [sampleSummary 3, sampleSummary 1, sampleSummary 2],
        latest_version_number := 0, dataset_created_millis := 0,
        created_at_millis := 0,
        config := { enabled := true, max_entries := 2, max_archive_files := 2 } }).versions =
      [sampleSummary 2, sampleSummary 3] ∧
    (finalize_summaries 99
      { versions := [sampleSummary 3, sampleSummary 1, sampleSummary 2],
        latest_version_number := 0, dataset_created_millis := 0,
        created_at_millis := 0,
        config := { enabled := true, max_entries := 2, max_archive_files := 2 } }).latest_version_number = 3 := by
  refine ⟨?_, by decide, by decide⟩
  exact (flush_sorted_truncated_latest (fun _ => []) 99
    { versions := [sampleSummary 3, sampleSummary 1, sampleSummary 2],
      latest_version_number := 0, dataset_created_millis := 0,
      created_at_millis := 0,
      config := { enabled := true, max_entries := 2, max_archive_files := 2 } }
    [] (by decide)).1

/-! ## Claim C2 -/

instance : IsTotal (Nat × Bytes) (fun x y => y.1 ≤ x.1) :=
  ⟨fun a b => le_total b.1 a.1⟩

instance : IsTrans (Nat × Bytes) (fun x y => y.1 ≤ x.1) :=
  ⟨fun _ _ _ h1 h2 => le_trans h2 h1⟩

theorem archive_load_loop_spec (dec : Bytes → Option PbVersionArchive)
    (config : VersionArchiveConfig) (l : List (Nat × Bytes)) :
    (match l.find? (fun e => (dec e.2).isSome) with
     | some e => ∃ proto, dec e.2 = some proto ∧
         archive_load_loop dec config l = some (archive_from_proto config proto)
     | none => archive_load_loop dec config l = none) := by
  induction l with
  | nil => simp [archive_load_loop]
  | cons e rest ih =>
      by_cases hd : ((dec e.2).isSome : Bool)
      · rw [List.find?_cons_of_pos (p := fun e => (dec e.2).isSome) rest hd]
        obtain ⟨proto, hp⟩ := Option.isSome_iff_exists.mp hd
        exact ⟨proto, hp, by simp [archive_load_loop, archive_load_from_bytes, hp]⟩
      · rw [List.find?_cons_of_neg (p := fun e => (dec e.2).isSome) rest (by simpa using hd)]
        have hnone : dec e.2 = none := Option.not_isSome_iff_eq_none.mp hd
        have hloop : archive_load_loop dec config (e :: rest) =
            archive_load_loop dec config rest := by
          simp [archive_load_loop, archive_load_from_bytes, hnone]
        rw [hloop]
        exact ih

/-- C2: `load_or_new` lists the archive directory, walks the files in
descending version order, returns the first archive that decodes, and when
no file decodes (or the directory is empty) returns a new empty archive
whose `created_at_millis` is the current time — so a corrupt newest file
never hides the next-older valid file. -/
theorem load_or_new_spec (dec : Bytes → Option PbVersionArchive) (now : Nat)
    (config : VersionArchiveConfig) (store : Store) :
    List.Sorted (fun x y : Nat × Bytes => y.1 ≤ x.1) (list_archive_files store) ∧
    (list_archive_files store).Perm
      (store.map (fun e => (from_inverted_version e.1, e.2))) ∧
    (match (list_archive_files store).find? (fun e => (dec e.2).isSome) with
     | some e => ∃ proto, dec e.2 = some proto ∧
         load_or_new dec now config store = archive_from_proto config proto
     | none =>
         load_or_new dec now config store =
           { versions := [], latest_version_number := 0, dataset_created_millis := 0,
             created_at_millis := now, config := config }) := by
  refine ⟨?_, ?_, ?_⟩
  · unfold list_archive_files
    exact List.sorted_insertionSort _ _
  · unfold list_archive_files
    exact List.perm_insertionSort _ _
  · have hloop := archive_load_loop_spec dec config (list_archive_files store)
    unfold load_or_new
    cases hf : (list_archive_files store).find? (fun e => (dec e.2).isSome) with
    | some e =>
        rw [hf] at hloop
        obtain ⟨proto, hp, hl⟩ := hloop
        exact ⟨proto, hp, by rw [hl]⟩
    | none =>
        rw [hf] at hloop
        rw [hloop]

/-! ## Claim C1 -/

/-- C1 evaluated at a failing input: with `max_archive_files = 1`, an
existing archive file for version 1 and a flush that writes the version-2
file, `cleanup_old_archives` deletes the file it just wrote — the newest —
and keeps the oldest: `list_archive_files` sorts descending by version and
the cleanup loop takes the files to delete from the front of that list.
The claim instead requires the oldest file (version 1) to be deleted, which
would leave the store holding exactly the version-2 file. -/
theorem cleanup_deletes_newest_not_oldest :
    (VersionArchiveState.flush (fun _ => [1]) 50
      { versions := [sampleSummary 2], latest_version_number := 0,
        dataset_created_millis := 0, created_at_millis := 0,
        config := { enabled := true, max_entries := 10000, max_archive_files := 1 } }
      [(to_inverted_version 1, [0])]).toOption.map (fun r => r.2) =
      some [(to_inverted_version 1, [0])] := by
  decide

/-! ## Claim C8 -/

theorem prefixOffsets_length (acc : Nat) (rs : List Nat) :
    (prefixOffsets acc rs).length = rs.length + 1 := by
  induction rs generalizing acc with
  | nil => rfl
  | cons r rs ih => simp [prefixOffsets, ih]

theorem prefixOffsets_head (acc : Nat) (rs : List Nat) :
    (prefixOffsets acc rs).getD 0 0 = acc := by
  cases rs <;> rfl

theorem compute_fragment_offsets_length (fragments : List Fragment) :
    (compute_fragment_offsets fragments).length = fragments.length + 1 := by
  unfold compute_fragment_offsets
  rw [prefixOffsets_length, List.length_map]

theorem compute_fragment_offsets_head (fragments : List Fragment) :
    (compute_fragment_offsets fragments).getD 0 0 = 0 :=
  prefixOffsets_head 0 _

theorem binarySearchLoop_error_pos (xs : List Nat) (target : Nat)
    (h0 : xs.getD 0 0 = 0) :
    ∀ fuel left right, right - left < fuel → 0 < right →
      ∀ e, binarySearchLoop xs target left right fuel = .error e → 0 < e := by
  intro fuel
  induction fuel with
  | zero =>
      intro left right hf _ e _
      exact absurd hf (by omega)
  | succ n ih =>
      intro left right hf hr e heq
      simp only [binarySearchLoop] at heq
      by_cases hlr : left < right
      · rw [if_pos hlr] at heq
        have hdiv : (right - left) / 2 < right - left :=
          Nat.div_lt_self (by omega) (by omega)
        by_cases hlt : xs.getD (left + (right - left) / 2) 0 < target
        · rw [if_pos hlt] at heq
          exact ih (left + (right - left) / 2 + 1) right (by omega) hr e heq
        · rw [if_neg hlt] at heq
          by_cases hgt : target < xs.getD (left + (right - left) / 2) 0
          · rw [if_pos hgt] at heq
            have hmid : 0 < left + (right - left) / 2 := by
              by_contra hz
              push_neg at hz
              have hl0 : left = 0 := by omega
              have hm0 : left + (right - left) / 2 = 0 := by omega
              rw [hm0, h0] at hgt
              omega
            exact ih left (left + (right - left) / 2) (by omega) hmid e heq
          · rw [if_neg hgt] at heq
            exact absurd heq (by simp)
      · rw [if_neg hlr] at heq
        have : e = left := by
          have := Except.error.inj heq
          omega
        omega

/-- C8: for every manifest produced by `new`, `new_from_previous` or
protobuf decoding, the `idx - 1` step of `fragments_by_offset_range` never
underflows — the failed-binary-search branch with insertion point 0 is
unreachable because such a manifest's `fragment_offsets` start with 0 — so
the call always returns a value. -/
theorem fragments_by_offset_range_no_underflow (m : Manifest)
    (h : (∃ schema fragments dsf bv, m = Manifest.new schema fragments dsf bv) ∨
         (∃ prev schema fragments bv,
            m = Manifest.new_from_previous prev schema fragments bv) ∨
         (∃ p, decodeManifest p = .ok m))
    (start stop : Nat) :
    (m.fragments_by_offset_range start stop).isSome := by
  have hoff : m.fragment_offsets = compute_fragment_offsets m.fragments := by
    rcases h with ⟨s, f, d, b, rfl⟩ | ⟨p, s, f, b, rfl⟩ | ⟨p, hp⟩
    · rfl
    · rfl
    · unfold decodeManifest at hp
      by_cases hc : FLAG_MOVE_STABLE_ROW_IDS &&& p.reader_feature_flags ≠ 0 ∧
          ¬ (p.fragments.all (fun frag => frag.row_id_meta.isSome) : Bool)
      · rw [if_pos hc] at hp
        exact absurd hp (by simp)
      · rw [if_neg hc] at hp
        have hm := Except.ok.inj hp
        rw [← hm]
  unfold Manifest.fragments_by_offset_range
  cases hbs : rustBinarySearch m.fragment_offsets start with
  | ok idx => simp
  | error ins =>
      have hlenpos : 0 < m.fragment_offsets.length := by
        rw [hoff, compute_fragment_offsets_length]
        omega
      have hpos : 0 < ins := by
        refine binarySearchLoop_error_pos m.fragment_offsets start ?_
          (m.fragment_offsets.length + 1) 0 m.fragment_offsets.length
          (by omega) hlenpos ins hbs
        rw [hoff]
        exact compute_fragment_offsets_head m.fragments
      have hne : ins ≠ 0 := by omega
      simp [hne]

/-- Witness for C8: a fresh two-fragment manifest, queried at range 0..5. -/
theorem fragments_by_offset_range_no_underflow_witness :
    ((Manifest.new { fields := .nil, metadata := [] }
        [{ id := 0, files := [], deletion_file := none, row_id_meta := none,
           physical_rows := some 3 },
         { id := 1, files := [], deletion_file := none, row_id_meta := none,
           physical_rows := some 4 }]
        { file_format := "lance", version := "2.0" } none).fragments_by_offset_range
      0 5).isSome :=
  fragments_by_offset_range_no_underflow _
    (Or.inl ⟨{ fields := .nil, metadata := [] },
      [{ id := 0, files := [], deletion_file := none, row_id_meta := none,
         physical_rows := some 3 },
       { id := 1, files := [], deletion_file := none, row_id_meta := none,
         physical_rows := some 4 }],
      { file_format := "lance", version := "2.0" }, none, rfl⟩) 0 5

/-! ## Claim C3 -/

deriving instance DecidableEq for Except

theorem u128AsI64_small (n : Nat) (h : n < 2 ^ 63) : u128AsI64 n = Int.ofNat n := by
  have h1 : n % 2 ^ 64 = n := Nat.mod_eq_of_lt (by omega)
  simp only [u128AsI64, u64AsI64, h1]
  rw [if_pos h]
  rfl

theorem i64AsU128_ofNat (s : Nat) (h : s < 2 ^ 63) :
    i64AsU128 (Int.ofNat s) = s := by
  unfold i64AsU128
  rw [Int.ofNat_eq_natCast]
  have h128 : (2 ^ 128 : Int) = ((2 ^ 128 : Nat) : Int) := by norm_num
  rw [h128]
  omega

theorem i32AsU128_ofNat (k : Nat) (h : k < 2 ^ 128) :
    i32AsU128 (Int.ofNat k) = k := by
  unfold i32AsU128
  rw [Int.ofNat_eq_natCast]
  have h128 : (2 ^ 128 : Int) = ((2 ^ 128 : Nat) : Int) := by norm_num
  rw [h128]
  omega

theorem timestamp_decode_encode (ts : Nat) (h : ts / 1000000000 < 2 ^ 63) :
    (i64AsU128 (u128AsI64 (ts / 1000000000)) * 1000000000 % 2 ^ 128 +
      i32AsU128 (Int.ofNat (ts % 1000000000))) % 2 ^ 128 = ts := by
  rw [u128AsI64_small _ h, i64AsU128_ofNat _ h,
    i32AsU128_ofNat (ts % 1000000000) (by omega)]
  omega

theorem option_string_roundtrip (t : Option String) (h : t ≠ some "") :
    (if t.getD "" = "" then none else some (t.getD "")) = t := by
  cases t with
  | none => simp
  | some s =>
      have hs : ¬ s = "" := by
        intro he
        exact h (by rw [he])
      simp [hs]

theorem option_nat_roundtrip (b : Option Nat) (h : b ≠ some 0) :
    (if b.getD 0 = 0 then none else some (b.getD 0)) = b := by
  cases b with
  | none => simp
  | some v =>
      have hv : ¬ v = 0 := by
        intro he
        exact h (by rw [he])
      simp [hv]

theorem wv_map_roundtrip (wv : Option WriterVersion) :
    (wv.map (fun w => ({ library := w.library, version := w.version } :
        PbWriterVersion))).map
      (fun w => ({ library := w.library, version := w.version } : WriterVersion)) =
      wv := by
  cases wv <;> rfl

theorem ts_map_roundtrip (tsn : Nat) (h : tsn / 1000000000 < 2 ^ 63) :
    ((if tsn = 0 then none else
        some ({ seconds := u128AsI64 (tsn / 1000000000),
                nanos := Int.ofNat (tsn % 1000000000) } : PbTimestamp)).map
      (fun ts => (i64AsU128 ts.seconds * 1000000000 % 2 ^ 128 +
        i32AsU128 ts.nanos) % 2 ^ 128)).getD 0 = tsn := by
  by_cases h0 : tsn = 0
  · simp [h0]
  · rw [if_neg h0]
    simp only [Option.map_some', Option.getD_some]
    exact timestamp_decode_encode tsn h

/-- C3 (amended): for every manifest whose `writer_version` is fully set
and which satisfies the in-memory representation invariants — derived
fields really are the derived values, `tag`/`transaction_file` are never
`Some("")`, `blob_dataset_version` is never `Some(0)`, the
`MOVE_STABLE_ROW_IDS` invariant holds, and the timestamp's seconds fit in
an `i64` — decoding the protobuf message produced by encoding the manifest
returns exactly the manifest. -/
theorem decode_encode_roundtrip (m : Manifest)
    (hwv : m.writer_version.isSome)
    (hlocal : m.local_schema = m.schema.retainDefault)
    (hoffs : m.fragment_offsets = compute_fragment_offsets m.fragments)
    (htag : m.tag ≠ some "")
    (htx : m.transaction_file ≠ some "")
    (hblob : m.blob_dataset_version ≠ some 0)
    (hrow : m.reader_feature_flags &&& FLAG_MOVE_STABLE_ROW_IDS = 0 ∨
      ∀ f ∈ m.fragments, f.row_id_meta.isSome)
    (hts : m.timestamp_nanos / 1000000000 < 2 ^ 63) :
    decodeManifest m.toPb = .ok m := by
  obtain ⟨sch, lsch, ver, wv, frs, vad, isec, tsn, tg, rff, wff, mfi, txf, fro,
    nri, dsf, cfg, bdv⟩ := m
  simp only at hwv hlocal hoffs htag htx hblob hrow hts
  have hc : ¬ (FLAG_MOVE_STABLE_ROW_IDS &&& rff ≠ 0 ∧
      ¬ (frs.all (fun frag => frag.row_id_meta.isSome) : Bool)) := by
    rcases hrow with h0 | hall
    · intro hcon
      exact hcon.1 (by rw [Nat.land_comm]; exact h0)
    · intro hcon
      refine hcon.2 ?_
      rw [List.all_eq_true]
      intro f hf
      exact hall f hf
  simp only [Manifest.toPb, decodeManifest]
  rw [if_neg hc]
  refine congrArg Except.ok ?_
  simp only [Manifest.mk.injEq]
  refine ⟨trivial, by rw [hlocal], trivial, ?_, trivial, trivial, trivial, ?_,
    option_string_roundtrip tg htag, trivial, trivial, trivial,
    option_string_roundtrip txf htx, hoffs.symm, trivial, trivial, trivial,
    option_nat_roundtrip bdv hblob⟩
  · exact wv_map_roundtrip wv
  · exact ts_map_roundtrip tsn hts

/-- A concrete manifest whose tag is `Some("")`, refuting the unrestricted
round-trip claim. -/
def manifestWithEmptyTag : Manifest :=
  { Manifest.new { fields := .nil, metadata := [] } []
      { file_format := "lance", version := "2.0" } none with
    tag := some "" }

/-- C3 counterexample: for the manifest with `tag = Some("")` (and
`writer_version` fully set), decoding the encoded message does not return
the manifest with its derived fields recomputed — the decoder collapses the
empty tag to `None`. -/
theorem decode_encode_roundtrip_counterexample :
    decodeManifest manifestWithEmptyTag.toPb ≠
      .ok manifestWithEmptyTag.withDerivedRecomputed := by
  decide

/-- Witness for C3 at a concrete well-formed manifest. -/
theorem decode_encode_roundtrip_witness :
    decodeManifest
      (Manifest.new { fields := .cons (.mk 0 [("a", "b")] .defaultClass .nil) .nil,
                      metadata := [("m", "n")] }
        [{ id := 0, files := [], deletion_file := none, row_id_meta := none,
           physical_rows := some 3 }]
        { file_format := "lance", version := "2.0" } (some 7)).toPb =
      .ok (Manifest.new { fields := .cons (.mk 0 [("a", "b")] .defaultClass .nil) .nil,
                          metadata := [("m", "n")] }
        [{ id := 0, files := [], deletion_file := none, row_id_meta := none,
           physical_rows := some 3 }]
        { file_format := "lance", version := "2.0" } (some 7)) :=
  decode_encode_roundtrip _ (by decide) (by decide) (by decide) (by decide)
    (by decide) (by decide) (Or.inl (by decide)) (by decide)

/-! ## Claim C5 -/

theorem prefixOffsets_getD_succ (rs : List Nat) (acc : Nat) :
    ∀ i, i < rs.length →
      (prefixOffsets acc rs).getD (i + 1) 0 =
        (prefixOffsets acc rs).getD i 0 + rs.getD i 0 := by
  induction rs generalizing acc with
  | nil => intro i hi; exact absurd hi (by simp)
  | cons r rs ih =>
      intro i hi
      cases i with
      | zero =>
          show (prefixOffsets (acc + r) rs).getD 0 0 = acc + (r :: rs).getD 0 0
          rw [prefixOffsets_head]
          rfl
      | succ j =>
          have hj : j < rs.length := by simpa using hi
          show (prefixOffsets (acc + r) rs).getD (j + 1) 0 =
            (prefixOffsets (acc + r) rs).getD j 0 + (r :: rs).getD (j + 1) 0
          rw [ih (acc + r) j hj]
          rfl

theorem stepwise_mono (g : Nat → Nat) (n : Nat)
    (hstep : ∀ i, i < n → g i ≤ g (i + 1)) :
    ∀ j, j ≤ n → ∀ i, i ≤ j → g i ≤ g j := by
  intro j
  induction j with
  | zero =>
      intro _ i hi
      have hz : i = 0 := by omega
      rw [hz]
  | succ k ih =>
      intro hk i hi
      rcases Nat.lt_succ_iff_lt_or_eq.mp (Nat.lt_succ_of_le hi) with h | h
      · exact le_trans (ih (by omega) i (by omega)) (hstep k (by omega))
      · rw [h]

theorem stepwise_strict (g : Nat → Nat) (n : Nat)
    (hstep : ∀ i, i < n → g i < g (i + 1)) :
    ∀ j, j ≤ n → ∀ i, i < j → g i < g j := by
  intro j
  induction j with
  | zero => intro _ i hi; omega
  | succ k ih =>
      intro hk i hi
      rcases Nat.lt_succ_iff_lt_or_eq.mp hi with h | h
      · exact lt_trans (ih (by omega) i h) (hstep k (by omega))
      · rw [h]; exact hstep k (by omega)

theorem manifest_offsets_step (m : Manifest)
    (hoff : m.fragment_offsets = compute_fragment_offsets m.fragments) :
    ∀ i, i < m.fragments.length →
      m.fragment_offsets.getD (i + 1) 0 =
        m.fragment_offsets.getD i 0 + (m.fragments.getD i default).num_rows.getD 0 := by
  intro i hi
  rw [hoff]
  unfold compute_fragment_offsets
  rw [prefixOffsets_getD_succ _ 0 i (by simpa using hi)]
  congr 1
  rw [List.getD_eq_getElem?_getD, List.getElem?_map,
    List.getElem?_eq_getElem hi, List.getD_eq_getElem _ _ hi]
  rfl

theorem manifest_rows_pos (m : Manifest)
    (hpos : ∀ f ∈ m.fragments, 0 < f.num_rows.getD 0) :
    ∀ i, i < m.fragments.length →
      0 < (m.fragments.getD i default).num_rows.getD 0 := by
  intro i hi
  rw [List.getD_eq_getElem _ _ hi]
  exact hpos _ (List.getElem_mem hi)

theorem binarySearchLoop_spec (xs : List Nat) (t : Nat)
    (hmono : ∀ i j, i ≤ j → j < xs.length → xs.getD i 0 ≤ xs.getD j 0) :
    ∀ fuel left right, right - left < fuel → left ≤ right → right ≤ xs.length →
      (∀ k, k < left → xs.getD k 0 < t) →
      (∀ k, right ≤ k → k < xs.length → t < xs.getD k 0) →
      (match binarySearchLoop xs t left right fuel with
       | .ok i => i < xs.length ∧ xs.getD i 0 = t
       | .error j => j ≤ xs.length ∧ (∀ k, k < j → xs.getD k 0 < t) ∧
           (∀ k, j ≤ k → k < xs.length → t < xs.getD k 0)) := by
  intro fuel
  induction fuel with
  | zero =>
      intro left right hf _ _ _ _
      exact absurd hf (by omega)
  | succ n ih =>
      intro left right hf hlr2 hrlen hl hr
      simp only [binarySearchLoop]
      by_cases hlr : left < right
      · rw [if_pos hlr]
        have hdiv : (right - left) / 2 < right - left :=
          Nat.div_lt_self (by omega) (by omega)
        have hmid1 : left ≤ left + (right - left) / 2 := Nat.le_add_right _ _
        have hmid2 : left + (right - left) / 2 < right := by omega
        by_cases hlt : xs.getD (left + (right - left) / 2) 0 < t
        · rw [if_pos hlt]
          refine ih (left + (right - left) / 2 + 1) right (by omega) (by omega)
            hrlen ?_ hr
          intro k hk
          by_cases hkl : k < left
          · exact hl k hkl
          · exact lt_of_le_of_lt
              (hmono k (left + (right - left) / 2) (by omega) (by omega)) hlt
        · rw [if_neg hlt]
          by_cases hgt : t < xs.getD (left + (right - left) / 2) 0
          · rw [if_pos hgt]
            refine ih left (left + (right - left) / 2) (by omega) (by omega)
              (by omega) hl ?_
            intro k hk hklen
            exact lt_of_lt_of_le hgt
              (hmono (left + (right - left) / 2) k hk hklen)
          · rw [if_neg hgt]
            exact ⟨by omega, by omega⟩
      · rw [if_neg hlr]
        exact ⟨by omega, fun k hk => hl k hk,
          fun k hk hklen => hr k (by omega) hklen⟩

theorem offsetWalkFuel_eq_filter (m : Manifest) (start stop i0 : Nat)
    (hnb : ∀ k, i0 ≤ k → k < m.fragments.length →
      start < m.fragment_offsets.getD k 0 +
        (m.fragments.getD k default).num_rows.getD 0)
    (hmono : ∀ i j, i ≤ j → j ≤ m.fragments.length →
      m.fragment_offsets.getD i 0 ≤ m.fragment_offsets.getD j 0) :
    ∀ d i, m.fragments.length - i = d → i0 ≤ i →
      offsetWalkFuel m start stop i d =
        ((List.range' i (m.fragments.length - i)).filter
          (fun k => decide (m.fragment_offsets.getD k 0 < stop))).map
          (fun k => (m.fragment_offsets.getD k 0, m.fragments.getD k default)) := by
  intro d
  induction d with
  | zero =>
      intro i hd hge
      rw [hd]
      simp [offsetWalkFuel]
  | succ dd ih =>
      intro i hd hge
      have hi : i < m.fragments.length := by omega
      show (if i < m.fragments.length then
          if stop ≤ m.fragment_offsets.getD i 0 ∨
              m.fragment_offsets.getD i 0 +
                (m.fragments.getD i default).num_rows.getD 0 ≤ start then []
          else (m.fragment_offsets.getD i 0, m.fragments.getD i default) ::
            offsetWalkFuel m start stop (i + 1) dd
        else []) = _
      rw [if_pos hi]
      have hnbi := hnb i hge hi
      by_cases hstop : stop ≤ m.fragment_offsets.getD i 0
      · rw [if_pos (Or.inl hstop)]
        have hfil : (List.range' i (m.fragments.length - i)).filter
            (fun k => decide (m.fragment_offsets.getD k 0 < stop)) = [] := by
          rw [List.filter_eq_nil_iff]
          intro k hk
          rw [List.mem_range'_1] at hk
          have hik : i ≤ k := hk.1
          have hkn : k < m.fragments.length := by omega
          have hmk := hmono i k hik (by omega)
          simp only [decide_eq_true_eq]
          omega
        rw [hfil]
        rfl
      · have hcond : ¬ (stop ≤ m.fragment_offsets.getD i 0 ∨
            m.fragment_offsets.getD i 0 +
              (m.fragments.getD i default).num_rows.getD 0 ≤ start) := by
          push_neg
          exact ⟨lt_of_not_le hstop, by omega⟩
        rw [if_neg hcond]
        have hrng : m.fragments.length - i = (m.fragments.length - (i + 1)) + 1 := by
          omega
        rw [hrng, List.range'_succ i (m.fragments.length - (i + 1)) 1]
        rw [List.filter_cons_of_pos (by
          simp only [decide_eq_true_eq]
          omega)]
        rw [List.map_cons]
        congr 1
        exact ih (i + 1) (by omega) (by omega)

theorem offsetWalk_eq_filter (m : Manifest) (start stop i0 : Nat)
    (hnb : ∀ k, i0 ≤ k → k < m.fragments.length →
      start < m.fragment_offsets.getD k 0 +
        (m.fragments.getD k default).num_rows.getD 0)
    (hmono : ∀ i j, i ≤ j → j ≤ m.fragments.length →
      m.fragment_offsets.getD i 0 ≤ m.fragment_offsets.getD j 0)
    (i : Nat) (hge : i0 ≤ i) :
    offsetWalk m start stop i =
      ((List.range' i (m.fragments.length - i)).filter
        (fun k => decide (m.fragment_offsets.getD k 0 < stop))).map
        (fun k => (m.fragment_offsets.getD k 0, m.fragments.getD k default)) := by
  unfold offsetWalk
  exact offsetWalkFuel_eq_filter m start stop i0 hnb hmono
    (m.fragments.length - i) i rfl hge

theorem walk_from_idx (m : Manifest) (start stop idx : Nat)
    (hoff : m.fragment_offsets = compute_fragment_offsets m.fragments)
    (hpos : ∀ f ∈ m.fragments, 0 < f.num_rows.getD 0)
    (hA : idx ≤ m.fragments.length)
    (hB : m.fragment_offsets.getD idx 0 ≤ start)
    (hC : idx < m.fragments.length → start < m.fragment_offsets.getD (idx + 1) 0) :
    offsetWalk m start stop idx =
      ((List.range m.fragments.length).filter (fun k =>
          decide (m.fragment_offsets.getD k 0 < stop) &&
          decide (start < m.fragment_offsets.getD (k + 1) 0))).map
        (fun k => (m.fragment_offsets.getD k 0, m.fragments.getD k default)) := by
  have hstep := manifest_offsets_step m hoff
  have hrpos := manifest_rows_pos m hpos
  have hstep_lt : ∀ i, i < m.fragments.length →
      m.fragment_offsets.getD i 0 < m.fragment_offsets.getD (i + 1) 0 := by
    intro i hi
    rw [hstep i hi]
    have := hrpos i hi
    omega
  have hmono : ∀ i j, i ≤ j → j ≤ m.fragments.length →
      m.fragment_offsets.getD i 0 ≤ m.fragment_offsets.getD j 0 := by
    intro i j hij hj
    exact stepwise_mono (fun k => m.fragment_offsets.getD k 0) m.fragments.length
      (fun k hk => le_of_lt (hstep_lt k hk)) j hj i hij
  have hgt : ∀ k, idx ≤ k → k < m.fragments.length →
      start < m.fragment_offsets.getD (k + 1) 0 := by
    intro k h1 h2
    have hidxn : idx < m.fragments.length := by omega
    have h3 := hC hidxn
    have h4 := hmono (idx + 1) (k + 1) (by omega) (by omega)
    omega
  have hnb : ∀ k, idx ≤ k → k < m.fragments.length →
      start < m.fragment_offsets.getD k 0 +
        (m.fragments.getD k default).num_rows.getD 0 := by
    intro k h1 h2
    rw [← hstep k h2]
    exact hgt k h1 h2
  rw [offsetWalk_eq_filter m start stop idx hnb hmono idx (le_refl idx)]
  have hsplit : List.range' 0 idx ++ List.range' idx (m.fragments.length - idx) =
      List.range m.fragments.length := by
    rw [List.range_eq_range']
    have h := List.range'_append 0 idx (m.fragments.length - idx) 1
    simp only [Nat.one_mul, Nat.zero_add] at h
    rw [h, show m.fragments.length - idx + idx = m.fragments.length from by omega]
  rw [← hsplit, List.filter_append]
  have hleft : (List.range' 0 idx).filter (fun k =>
      decide (m.fragment_offsets.getD k 0 < stop) &&
      decide (start < m.fragment_offsets.getD (k + 1) 0)) = [] := by
    rw [List.filter_eq_nil_iff]
    intro k hk
    rw [List.mem_range'_1] at hk
    have hk2 : k < idx := by omega
    have h5 := hmono (k + 1) idx (by omega) hA
    simp only [Bool.and_eq_true, decide_eq_true_eq, not_and]
    intro _
    omega
  rw [hleft, List.nil_append]
  have hcong : (List.range' idx (m.fragments.length - idx)).filter (fun k =>
      decide (m.fragment_offsets.getD k 0 < stop) &&
      decide (start < m.fragment_offsets.getD (k + 1) 0)) =
      (List.range' idx (m.fragments.length - idx)).filter (fun k =>
        decide (m.fragment_offsets.getD k 0 < stop)) := by
    apply List.filter_congr
    intro k hk
    rw [List.mem_range'_1] at hk
    have h1 : idx ≤ k := hk.1
    have h2 : k < m.fragments.length := by omega
    have h3 := hgt k h1 h2
    rw [decide_eq_true h3, Bool.and_true]
  rw [hcong]

/-- C5 (amended): for every manifest whose `fragment_offsets` are the
prefix-sum of its fragments' row counts and all of whose fragments have at
least one row, `fragments_by_offset_range(start..stop)` returns exactly the
`(starting_offset, fragment)` pairs of the fragments overlapping the offset
range, in order; in particular a fully out-of-range input yields an empty
result.  (Zero-row fragments are not always skipped — see the
counterexample — so the claim holds only with them excluded.) -/
theorem fragments_by_offset_range_overlap (m : Manifest) (start stop : Nat)
    (hoff : m.fragment_offsets = compute_fragment_offsets m.fragments)
    (hpos : ∀ f ∈ m.fragments, 0 < f.num_rows.getD 0) :
    m.fragments_by_offset_range start stop =
      some (((List.range m.fragments.length).filter (fun k =>
          decide (m.fragment_offsets.getD k 0 < stop) &&
          decide (start < m.fragment_offsets.getD (k + 1) 0))).map
        (fun k => (m.fragment_offsets.getD k 0, m.fragments.getD k default))) := by
  have hlen : m.fragment_offsets.length = m.fragments.length + 1 := by
    rw [hoff]
    exact compute_fragment_offsets_length _
  have hstep := manifest_offsets_step m hoff
  have hrpos := manifest_rows_pos m hpos
  have hstep_lt : ∀ i, i < m.fragments.length →
      m.fragment_offsets.getD i 0 < m.fragment_offsets.getD (i + 1) 0 := by
    intro i hi
    rw [hstep i hi]
    have := hrpos i hi
    omega
  have hmono : ∀ i j, i ≤ j → j ≤ m.fragments.length →
      m.fragment_offsets.getD i 0 ≤ m.fragment_offsets.getD j 0 := by
    intro i j hij hj
    exact stepwise_mono (fun k => m.fragment_offsets.getD k 0) m.fragments.length
      (fun k hk => le_of_lt (hstep_lt k hk)) j hj i hij
  have hmono_xs : ∀ i j, i ≤ j → j < m.fragment_offsets.length →
      m.fragment_offsets.getD i 0 ≤ m.fragment_offsets.getD j 0 := by
    intro i j hij hj
    exact hmono i j hij (by omega)
  have hhead : m.fragment_offsets.getD 0 0 = 0 := by
    rw [hoff]
    exact compute_fragment_offsets_head _
  have hbs := binarySearchLoop_spec m.fragment_offsets start hmono_xs
    (m.fragment_offsets.length + 1) 0 m.fragment_offsets.length (by omega)
    (by omega) (le_refl _)
    (fun k hk => absurd hk (by omega))
    (fun k hk hklen => absurd hklen (by omega))
  unfold Manifest.fragments_by_offset_range rustBinarySearch
  cases hres : binarySearchLoop m.fragment_offsets start 0
      m.fragment_offsets.length (m.fragment_offsets.length + 1) with
  | ok i =>
      have hbs2 : i < m.fragment_offsets.length ∧
          m.fragment_offsets.getD i 0 = start := by
        rw [hres] at hbs
        exact hbs
      show some (offsetWalk m start stop i) = _
      refine congrArg some (walk_from_idx m start stop i hoff hpos ?_ ?_ ?_)
      · have := hbs2.1
        omega
      · exact le_of_eq hbs2.2
      · intro hin
        have h2 := hstep_lt i hin
        rw [hbs2.2] at h2
        exact h2
  | error j =>
      have hbs2 : j ≤ m.fragment_offsets.length ∧
          (∀ k, k < j → m.fragment_offsets.getD k 0 < start) ∧
          (∀ k, j ≤ k → k < m.fragment_offsets.length →
            start < m.fragment_offsets.getD k 0) := by
        rw [hres] at hbs
        exact hbs
      obtain ⟨hjlen, hl, hr⟩ := hbs2
      have hj1 : 1 ≤ j := by
        by_contra h0
        push_neg at h0
        have hx := hr 0 (by omega) (by omega)
        rw [hhead] at hx
        omega
      show (if j = 0 then none else some (offsetWalk m start stop (j - 1))) = _
      rw [if_neg (by omega)]
      refine congrArg some (walk_from_idx m start stop (j - 1) hoff hpos ?_ ?_ ?_)
      · omega
      · have hx := hl (j - 1) (by omega)
        omega
      · intro hin
        have hx := hr j (by omega) (by omega)
        rw [show j - 1 + 1 = j from by omega]
        exact hx

/-- A manifest with fragment row counts `[10, 0, 15]` (ids 0, 1, 2). -/
def manifestZeroRow : Manifest :=
  Manifest.new { fields := .nil, metadata := [] }
    [{ id := 0, files := [], deletion_file := none, row_id_meta := none,
       physical_rows := some 10 },
     { id := 1, files := [], deletion_file := none, row_id_meta := none,
       physical_rows := some 0 },
     { id := 2, files := [], deletion_file := none, row_id_meta := none,
       physical_rows := some 15 }]
    { file_format := "lance", version := "2.0" } none

/-- C5 counterexample: on fragment row counts `[10, 0, 15]` the range
`5..20` returns the zero-row fragment (id 1, starting offset 10, strictly
inside the range) — zero-row fragments are not transparently skipped, and
the result is not exactly the overlapping fragments. -/
theorem fragments_by_offset_range_zero_row_included :
    manifestZeroRow.fragments_by_offset_range 5 20 =
      some [(0, { id := 0, files := [], deletion_file := none, row_id_meta := none,
                  physical_rows := some 10 }),
            (10, { id := 1, files := [], deletion_file := none, row_id_meta := none,
                   physical_rows := some 0 }),
            (10, { id := 2, files := [], deletion_file := none, row_id_meta := none,
                   physical_rows := some 15 })] ∧
    ({ id := 1, files := [], deletion_file := none, row_id_meta := none,
       physical_rows := some 0 } : Fragment).num_rows.getD 0 = 0 := by
  decide

/-- A manifest with fragment row counts `[10, 15, 20]` (ids 0, 1, 2), the
spec's offset-lookup scenario. -/
def manifestTenFifteenTwenty : Manifest :=
  Manifest.new { fields := .nil, metadata := [] }
    [{ id := 0, files := [], deletion_file := none, row_id_meta := none,
       physical_rows := some 10 },
     { id := 1, files := [], deletion_file := none, row_id_meta := none,
       physical_rows := some 15 },
     { id := 2, files := [], deletion_file := none, row_id_meta := none,
       physical_rows := some 20 }]
    { file_format := "lance", version := "2.0" } none

/-- Witness for C5 on the spec's `[10, 15, 20]` scenario at range `5..15`:
the theorem applies and its right-hand side evaluates to the enumerated
`[(0, id 0), (10, id 1)]`. -/
theorem fragments_by_offset_range_overlap_witness :
    manifestTenFifteenTwenty.fragments_by_offset_range 5 15 =
      some [(0, { id := 0, files := [], deletion_file := none, row_id_meta := none,
                  physical_rows := some 10 }),
            (10, { id := 1, files := [], deletion_file := none, row_id_meta := none,
                   physical_rows := some 15 })] := by
  have h := fragments_by_offset_range_overlap manifestTenFifteenTwenty 5 15
    (by decide) (by decide)
  rw [h]
  decide
